import Mathlib

/-!
Verification of the filter-matching engine of oslo.rootwrap
(`oslo_rootwrap/wrapper.py`).

The `filters` module is not part of the sources under verification; as the
specification states, the engine only relies on each filter satisfying the
Filter contract (`match`, `exec_args`, `get_exec`, `get_command`,
`get_environment`, plus the `name` and `run_as` attributes and whether the
filter is a `ChainingFilter`).  A filter is therefore embedded as a record of
those capabilities.  Exceptions raised by `match_filter` are embedded as the
constructors of an explicit result type `MatchResult`.
-/

set_option maxHeartbeats 1000000

namespace Rootwrap

/-- A whitelist rule, abstracted over the Filter contract of
`oslo_rootwrap.filters`.  `fmatch` embeds the `match` method (renamed because
`match` is a Lean keyword); `isChaining` embeds the
`isinstance(f, filters.ChainingFilter)` test; `get_exec` returns the resolved
executable path or `none` when no executable is found (the Python code tests
the returned value for truthiness, i.e. `None`). -/
structure Filter where
  name : String
  run_as : String
  isChaining : Bool
  fmatch : List String → Bool
  exec_args : List String → List String
  get_exec : List String → Option String
  get_command : List String → List String → List String
  get_environment : List String → List (String × String) → List (String × String)

/-- Outcome of `match_filter` (wrapper.py lines 131-175): either the first
matching filter is returned, or one of the two exceptions `NoFilterMatched` /
`FilterMatchNotExecutable` is raised; the latter carries the offending filter
in its `match` attribute (wrapper.py lines 33-36). -/
inductive MatchResult where
  | matched (f : Filter)
  | noFilterMatched
  | filterMatchNotExecutable (m : Filter)

/-- Number of chaining filters in a list; used as the termination measure of
the embedded recursion. -/
def chainCount (l : List Filter) : Nat :=
  l.countP (fun g => g.isChaining)

/-- The leaf filter set built in the chaining branch of `match_filter`
(wrapper.py lines 148-153): filters of the original list with the same
`run_as` that are not chaining filters. -/
def leafFilters (filter_list : List Filter) (f : Filter) : List Filter :=
  filter_list.filter (fun fltr => fltr.run_as == f.run_as && !fltr.isChaining)

theorem chainCount_leafFilters (l : List Filter) (f : Filter) :
    chainCount (leafFilters l f) = 0 := by
  rw [chainCount, List.countP_eq_zero]
  intro a ha
  rw [leafFilters, List.mem_filter] at ha
  simp only [Bool.and_eq_true, Bool.not_eq_true'] at ha
  simp [ha.2.2]

theorem chainCount_cons_le (f : Filter) (l : List Filter) :
    chainCount l ≤ chainCount (f :: l) := by
  simp only [chainCount, List.countP_cons]
  omega

theorem chainCount_cons_chaining (f : Filter) (l : List Filter)
    (h : f.isChaining = true) : 0 < chainCount (f :: l) := by
  simp [chainCount, List.countP_cons, h]

/-- The loop of `match_filter` (wrapper.py lines 140-175).  `full` is the
`filter_list` of the current invocation (needed to build the leaf filter set),
`rest` the filters not yet scanned, `firstNE` the
`first_not_executable_filter` accumulator.  Each branch mirrors the Python
control flow: a non-matching filter is skipped; a matching chaining filter
whose `exec_args` are empty or whose recursive match over the leaf set raises
is skipped (`continue`); otherwise the executable check runs: if absent the
filter is remembered (only if none remembered yet) and scanning continues,
else the filter is returned.  After the loop the remembered filter (if any)
yields `FilterMatchNotExecutable`, otherwise `NoFilterMatched`. -/
def matchFilterAux (full rest : List Filter) (userargs exec_dirs : List String)
    (firstNE : Option Filter) : MatchResult :=
  match rest with
  | [] =>
    match firstNE with
    | some m => MatchResult.filterMatchNotExecutable m
    | none => MatchResult.noFilterMatched
  | f :: rest' =>
    if f.fmatch userargs then
      if hc : f.isChaining then
        let args := f.exec_args userargs
        if args.isEmpty then
          matchFilterAux full rest' userargs exec_dirs firstNE
        else
          match matchFilterAux (leafFilters full f) (leafFilters full f)
              args exec_dirs none with
          | MatchResult.matched _ =>
            if (f.get_exec exec_dirs).isSome then MatchResult.matched f
            else if firstNE.isNone then
              matchFilterAux full rest' userargs exec_dirs (some f)
            else
              matchFilterAux full rest' userargs exec_dirs firstNE
          | _ => matchFilterAux full rest' userargs exec_dirs firstNE
      else
        if (f.get_exec exec_dirs).isSome then MatchResult.matched f
        else if firstNE.isNone then
          matchFilterAux full rest' userargs exec_dirs (some f)
        else
          matchFilterAux full rest' userargs exec_dirs firstNE
    else matchFilterAux full rest' userargs exec_dirs firstNE
termination_by (chainCount rest, rest.length)
decreasing_by
  all_goals simp_wf
  all_goals first
    | (apply Prod.Lex.left
       rw [chainCount_leafFilters]
       exact chainCount_cons_chaining _ _ hc)
    | (rcases Nat.lt_or_ge (chainCount rest') (chainCount (f :: rest'))
        with h | h
       · exact Prod.Lex.left _ _ h
       · have := chainCount_cons_le f rest'
         have he : chainCount rest' = chainCount (f :: rest') := le_antisymm this h
         rw [he]
         exact Prod.Lex.right _ (Nat.lt_succ_self _))

/-- Embeds `match_filter(filter_list, userargs, exec_dirs)`
(wrapper.py lines 131-175). -/
def match_filter (filter_list : List Filter) (userargs exec_dirs : List String) :
    MatchResult :=
  matchFilterAux filter_list filter_list userargs exec_dirs none

/-- The chaining check applied to a matching filter (wrapper.py lines
145-160), as a Boolean: a chaining filter passes iff its embedded argument
vector is non-empty and the recursive match over the leaf filter set returns
a filter; a non-chaining filter passes trivially. -/
def chainOk (full : List Filter) (f : Filter) (userargs exec_dirs : List String) :
    Bool :=
  if f.isChaining then
    if (f.exec_args userargs).isEmpty then false
    else
      match matchFilterAux (leafFilters full f) (leafFilters full f)
          (f.exec_args userargs) exec_dirs none with
      | MatchResult.matched _ => true
      | _ => false
  else true

/-- A filter on which the scan terminates successfully: it matches, passes
the chaining check and resolves to an executable. -/
def accepts (full : List Filter) (userargs exec_dirs : List String) (f : Filter) :
    Bool :=
  f.fmatch userargs && chainOk full f userargs exec_dirs &&
    (f.get_exec exec_dirs).isSome

/-- A filter recorded as `first_not_executable_filter`: it matches, passes
the chaining check, but resolves to no executable. -/
def recordable (full : List Filter) (userargs exec_dirs : List String) (f : Filter) :
    Bool :=
  f.fmatch userargs && chainOk full f userargs exec_dirs &&
    !(f.get_exec exec_dirs).isSome

theorem matchFilterAux_nil (full : List Filter) (a d : List String)
    (ne : Option Filter) :
    matchFilterAux full [] a d ne =
      match ne with
      | some m => MatchResult.filterMatchNotExecutable m
      | none => MatchResult.noFilterMatched := by
  rw [matchFilterAux.eq_def]

theorem matchFilterAux_no_match (full : List Filter) (f : Filter)
    (rest : List Filter) (a d : List String) (ne : Option Filter)
    (hm : f.fmatch a = false) :
    matchFilterAux full (f :: rest) a d ne = matchFilterAux full rest a d ne := by
  rw [matchFilterAux.eq_def]
  simp [hm]

theorem matchFilterAux_chain_fail (full : List Filter) (f : Filter)
    (rest : List Filter) (a d : List String) (ne : Option Filter)
    (hm : f.fmatch a = true) (hc : chainOk full f a d = false) :
    matchFilterAux full (f :: rest) a d ne = matchFilterAux full rest a d ne := by
  rw [chainOk] at hc
  rw [matchFilterAux.eq_def]
  simp only [hm, if_true]
  by_cases hic : f.isChaining = true
  · simp only [hic, if_true] at hc
    simp only [hic, dif_pos]
    by_cases he : (f.exec_args a).isEmpty = true
    · simp [he]
    · simp only [he, if_false, Bool.false_eq_true] at hc ⊢
      revert hc
      cases matchFilterAux (leafFilters full f) (leafFilters full f)
          (f.exec_args a) d none <;> simp
  · simp only [Bool.not_eq_true] at hic
    simp [hic] at hc

theorem matchFilterAux_accept (full : List Filter) (f : Filter)
    (rest : List Filter) (a d : List String) (ne : Option Filter)
    (hm : f.fmatch a = true) (hc : chainOk full f a d = true)
    (hx : (f.get_exec d).isSome = true) :
    matchFilterAux full (f :: rest) a d ne = MatchResult.matched f := by
  rw [chainOk] at hc
  rw [matchFilterAux.eq_def]
  simp only [hm, if_true]
  by_cases hic : f.isChaining = true
  · simp only [hic, if_true] at hc
    simp only [hic, dif_pos]
    by_cases he : (f.exec_args a).isEmpty = true
    · simp [he] at hc
    · simp only [he, if_false, Bool.false_eq_true] at hc ⊢
      revert hc
      cases matchFilterAux (leafFilters full f) (leafFilters full f)
          (f.exec_args a) d none <;> simp [hx]
  · simp only [Bool.not_eq_true] at hic
    simp [hic, hx]

theorem matchFilterAux_record (full : List Filter) (f : Filter)
    (rest : List Filter) (a d : List String) (ne : Option Filter)
    (hm : f.fmatch a = true) (hc : chainOk full f a d = true)
    (hx : (f.get_exec d).isSome = false) :
    matchFilterAux full (f :: rest) a d ne =
      matchFilterAux full rest a d (if ne.isNone then some f else ne) := by
  rw [chainOk] at hc
  rw [matchFilterAux.eq_def]
  simp only [hm, if_true]
  by_cases hic : f.isChaining = true
  · simp only [hic, if_true] at hc
    simp only [hic, dif_pos]
    by_cases he : (f.exec_args a).isEmpty = true
    · simp [he] at hc
    · simp only [he, if_false, Bool.false_eq_true] at hc ⊢
      revert hc
      cases matchFilterAux (leafFilters full f) (leafFilters full f)
          (f.exec_args a) d none <;> simp [hx] <;> cases ne <;> simp
  · simp only [Bool.not_eq_true] at hic
    simp only [hic]
    simp only [Bool.false_eq_true, dif_neg, not_false_iff]
    simp [hx]
    cases ne <;> simp

/-- Full characterization of the scanning loop: the result is `matched` on
the first filter of the unscanned suffix that matches, passes the chaining
check and is executable; failing that, the remembered
`first_not_executable_filter` (or, when none is remembered yet, the first
filter of the suffix that matches and passes chaining but is not executable)
is reported as `FilterMatchNotExecutable`; failing that, `NoFilterMatched`. -/
theorem matchFilterAux_characterization (full : List Filter) (a d : List String) :
    ∀ (rest : List Filter) (ne : Option Filter),
      matchFilterAux full rest a d ne =
        match rest.find? (accepts full a d) with
        | some f => MatchResult.matched f
        | none =>
          match ne with
          | some m => MatchResult.filterMatchNotExecutable m
          | none =>
            match rest.find? (recordable full a d) with
            | some m => MatchResult.filterMatchNotExecutable m
            | none => MatchResult.noFilterMatched := by
  intro rest
  induction rest with
  | nil =>
    intro ne
    rw [matchFilterAux_nil]
    simp [List.find?]
  | cons f rest ih =>
    intro ne
    by_cases hm : f.fmatch a = true
    · by_cases hc : chainOk full f a d = true
      · by_cases hx : (f.get_exec d).isSome = true
        · rw [matchFilterAux_accept full f rest a d ne hm hc hx]
          rw [List.find?_cons_of_pos _ (by simp [accepts, hm, hc, hx])]
        · have hx' : (f.get_exec d).isSome = false := by
            simpa using hx
          rw [matchFilterAux_record full f rest a d ne hm hc hx']
          rw [ih]
          rw [List.find?_cons_of_neg _ (by simp [accepts, hm, hc, hx'])]
          cases ne with
          | some m => simp
          | none =>
            simp only [Option.isNone_none, if_true]
            rw [List.find?_cons_of_pos _ (by simp [recordable, hm, hc, hx'])]
      · have hc' : chainOk full f a d = false := by
          simpa using hc
        rw [matchFilterAux_chain_fail full f rest a d ne hm hc']
        rw [ih]
        rw [List.find?_cons_of_neg _ (by simp [accepts, hm, hc'])]
        rw [List.find?_cons_of_neg _ (by simp [recordable, hm, hc'])]
    · have hm' : f.fmatch a = false := by
        simpa using hm
      rw [matchFilterAux_no_match full f rest a d ne hm']
      rw [ih]
      rw [List.find?_cons_of_neg _ (by simp [accepts, hm'])]
      rw [List.find?_cons_of_neg _ (by simp [recordable, hm'])]

/-- Fuel-instrumented copy of the `match_filter` loop, used to express the
bound on the recursion depth: `fuel` is decremented at each nested chaining
recursion (the only recursion of `match_filter` that is not the plain scan of
the list) and `none` is returned when it runs out. -/
def matchFilterAuxFuel (fuel : Nat) (full rest : List Filter)
    (userargs exec_dirs : List String) (firstNE : Option Filter) :
    Option MatchResult :=
  match rest with
  | [] =>
    some (match firstNE with
          | some m => MatchResult.filterMatchNotExecutable m
          | none => MatchResult.noFilterMatched)
  | f :: rest' =>
    if f.fmatch userargs then
      if f.isChaining then
        if (f.exec_args userargs).isEmpty then
          matchFilterAuxFuel fuel full rest' userargs exec_dirs firstNE
        else
          match fuel with
          | 0 => none
          | fuel' + 1 =>
            match matchFilterAuxFuel fuel' (leafFilters full f) (leafFilters full f)
                (f.exec_args userargs) exec_dirs none with
            | none => none
            | some (MatchResult.matched _) =>
              if (f.get_exec exec_dirs).isSome then some (MatchResult.matched f)
              else if firstNE.isNone then
                matchFilterAuxFuel (fuel' + 1) full rest' userargs exec_dirs (some f)
              else
                matchFilterAuxFuel (fuel' + 1) full rest' userargs exec_dirs firstNE
            | some _ =>
              matchFilterAuxFuel (fuel' + 1) full rest' userargs exec_dirs firstNE
      else
        if (f.get_exec exec_dirs).isSome then some (MatchResult.matched f)
        else if firstNE.isNone then
          matchFilterAuxFuel fuel full rest' userargs exec_dirs (some f)
        else
          matchFilterAuxFuel fuel full rest' userargs exec_dirs firstNE
    else matchFilterAuxFuel fuel full rest' userargs exec_dirs firstNE
termination_by (fuel, rest.length)
decreasing_by
  all_goals simp_wf
  all_goals first
    | exact Prod.Lex.left _ _ (Nat.lt_succ_self _)
    | exact Prod.Lex.right _ (Nat.lt_succ_self _)

/-- On a list without chaining filters, the loop never recurses into a nested
match, so any fuel (even zero) computes the exact `matchFilterAux` result. -/
theorem matchFilterAuxFuel_chain_free (full : List Filter) (a d : List String) :
    ∀ (rest : List Filter) (fuel : Nat) (ne : Option Filter),
      chainCount rest = 0 →
      matchFilterAuxFuel fuel full rest a d ne =
        some (matchFilterAux full rest a d ne) := by
  intro rest
  induction rest with
  | nil =>
    intro fuel ne _
    rw [matchFilterAuxFuel.eq_def, matchFilterAux_nil]
  | cons f rest ih =>
    intro fuel ne h0
    have hf : f.isChaining = false := by
      by_contra hff
      simp only [Bool.not_eq_false] at hff
      have := chainCount_cons_chaining f rest hff
      omega
    have hrest : chainCount rest = 0 := by
      have := chainCount_cons_le f rest
      omega
    rw [matchFilterAuxFuel.eq_def]
    simp only [hf]
    by_cases hm : f.fmatch a = true
    · simp only [hm, if_true, Bool.false_eq_true, if_false]
      by_cases hx : (f.get_exec d).isSome = true
      · rw [matchFilterAux_accept full f rest a d ne hm (by simp [chainOk, hf]) hx]
        simp [hx]
      · have hx' : (f.get_exec d).isSome = false := by simpa using hx
        rw [matchFilterAux_record full f rest a d ne hm (by simp [chainOk, hf]) hx']
        simp only [hx', Bool.false_eq_true, if_false]
        cases ne with
        | some m => simpa using ih fuel (some m) hrest
        | none => simpa using ih fuel (some f) hrest
    · have hm' : f.fmatch a = false := by simpa using hm
      rw [matchFilterAux_no_match full f rest a d ne hm']
      simp only [hm', Bool.false_eq_true, if_false]
      exact ih fuel ne hrest

/-- One unit of fuel suffices for the whole loop: the nested recursion is
invoked only on leaf filter sets, which contain no chaining filters, so the
recursion is at most one level deep. -/
theorem matchFilterAuxFuel_one (a d : List String) :
    ∀ (rest : List Filter) (full : List Filter) (ne : Option Filter),
      matchFilterAuxFuel 1 full rest a d ne =
        some (matchFilterAux full rest a d ne) := by
  intro rest
  induction rest with
  | nil =>
    intro full ne
    rw [matchFilterAuxFuel.eq_def, matchFilterAux_nil]
  | cons f rest ih =>
    intro full ne
    rw [matchFilterAuxFuel.eq_def]
    by_cases hm : f.fmatch a = true
    · simp only [hm, if_true]
      by_cases hic : f.isChaining = true
      · simp only [hic, if_true]
        by_cases he : (f.exec_args a).isEmpty = true
        · rw [matchFilterAux_chain_fail full f rest a d ne hm
            (by simp [chainOk, hic, he])]
          simp only [he, if_true]
          exact ih full ne
        · simp only [he, Bool.false_eq_true, if_false]
          rw [matchFilterAuxFuel_chain_free (leafFilters full f) (f.exec_args a) d
            (leafFilters full f) 0 none (chainCount_leafFilters full f)]
          cases hrec : matchFilterAux (leafFilters full f) (leafFilters full f)
              (f.exec_args a) d none with
          | matched g =>
            have hco : chainOk full f a d = true := by
              rw [chainOk]
              simp [hic, he, hrec]
            by_cases hx : (f.get_exec d).isSome = true
            · rw [matchFilterAux_accept full f rest a d ne hm hco hx]
              simp [hx]
            · have hx' : (f.get_exec d).isSome = false := by simpa using hx
              rw [matchFilterAux_record full f rest a d ne hm hco hx']
              simp only [hx', Bool.false_eq_true, if_false]
              cases ne with
              | some m => simpa using ih full (some m)
              | none => simpa using ih full (some f)
          | noFilterMatched =>
            rw [matchFilterAux_chain_fail full f rest a d ne hm
              (by rw [chainOk]; simp [hic, he, hrec])]
            exact ih full ne
          | filterMatchNotExecutable m =>
            rw [matchFilterAux_chain_fail full f rest a d ne hm
              (by rw [chainOk]; simp [hic, he, hrec])]
            exact ih full ne
      · have hic' : f.isChaining = false := by simpa using hic
        simp only [hic', Bool.false_eq_true, if_false]
        by_cases hx : (f.get_exec d).isSome = true
        · rw [matchFilterAux_accept full f rest a d ne hm (by simp [chainOk, hic']) hx]
          simp [hx]
        · have hx' : (f.get_exec d).isSome = false := by simpa using hx
          rw [matchFilterAux_record full f rest a d ne hm (by simp [chainOk, hic']) hx']
          simp only [hx', Bool.false_eq_true, if_false]
          cases ne with
          | some m => simpa using ih full (some m)
          | none => simpa using ih full (some f)
    · have hm' : f.fmatch a = false := by simpa using hm
      rw [matchFilterAux_no_match full f rest a d ne hm']
      simp only [hm', Bool.false_eq_true, if_false]
      exact ih full ne

/-- Characterization of `match_filter`. -/
theorem match_filter_characterization (F : List Filter) (a d : List String) :
    match_filter F a d =
      match F.find? (accepts F a d) with
      | some f => MatchResult.matched f
      | none =>
        match F.find? (recordable F a d) with
        | some m => MatchResult.filterMatchNotExecutable m
        | none => MatchResult.noFilterMatched := by
  rw [match_filter, matchFilterAux_characterization]

theorem match_filter_matched_sound {F : List Filter} {a d : List String}
    {f : Filter} (h : match_filter F a d = MatchResult.matched f) :
    f ∈ F ∧ accepts F a d f = true := by
  rw [match_filter_characterization] at h
  cases hacc : F.find? (accepts F a d) with
  | some g =>
    rw [hacc] at h
    cases h
    exact ⟨List.mem_of_find?_eq_some hacc, List.find?_some hacc⟩
  | none =>
    rw [hacc] at h
    cases hrec : F.find? (recordable F a d) <;> rw [hrec] at h <;> cases h

theorem match_filter_notExecutable_sound {F : List Filter} {a d : List String}
    {m : Filter}
    (h : match_filter F a d = MatchResult.filterMatchNotExecutable m) :
    m ∈ F ∧ m.fmatch a = true ∧ chainOk F m a d = true ∧
      (m.get_exec d).isSome = false := by
  rw [match_filter_characterization] at h
  cases hacc : F.find? (accepts F a d) with
  | some g => rw [hacc] at h; cases h
  | none =>
    rw [hacc] at h
    cases hrec : F.find? (recordable F a d) with
    | some g =>
      rw [hrec] at h
      cases h
      have hg := List.find?_some hrec
      rw [recordable] at hg
      simp only [Bool.and_eq_true, Bool.not_eq_true'] at hg
      exact ⟨List.mem_of_find?_eq_some hrec, hg.1.1, hg.1.2, hg.2⟩
    | none => rw [hrec] at h; cases h

theorem match_filter_first_accepting {F : List Filter} {a d : List String}
    {f : Filter} (h : F.find? (accepts F a d) = some f) :
    match_filter F a d = MatchResult.matched f := by
  rw [match_filter_characterization, h]

theorem match_filter_no_accepting {F : List Filter} {a d : List String}
    (h : F.find? (accepts F a d) = none) :
    match_filter F a d =
      match F.find? (recordable F a d) with
      | some m => MatchResult.filterMatchNotExecutable m
      | none => MatchResult.noFilterMatched := by
  rw [match_filter_characterization, h]

/-- Extensional equality of two filters: the attributes agree and each method
returns the same output on every input.  It expresses the determinism
precondition that each filter method behaves as a pure function of its
arguments across two calls. -/
def Filter.EquivExt (f g : Filter) : Prop :=
  f.name = g.name ∧ f.run_as = g.run_as ∧ f.isChaining = g.isChaining ∧
    (∀ a, f.fmatch a = g.fmatch a) ∧ (∀ a, f.exec_args a = g.exec_args a) ∧
    (∀ d, f.get_exec d = g.get_exec d) ∧
    (∀ a d, f.get_command a d = g.get_command a d) ∧
    (∀ a e, f.get_environment a e = g.get_environment a e)

theorem Filter.eq_of_equivExt {f g : Filter} (h : f.EquivExt g) : f = g := by
  obtain ⟨h1, h2, h3, h4, h5, h6, h7, h8⟩ := h
  cases f
  cases g
  simp only [Filter.mk.injEq]
  refine ⟨h1, h2, h3, funext h4, funext h5, funext h6, ?_, ?_⟩
  · exact funext fun a => funext fun d => h7 a d
  · exact funext fun a => funext fun e => h8 a e

/-- Observable effects of `start_subprocess`, listed in program order. -/
inductive Event where
  | audit (login target : String) (command : List String) (filterName : String)
  | spawn (command : List String) (env : List (String × String))

/-- Embeds `start_subprocess` (wrapper.py lines 193-207) as the matching
outcome paired with the ordered list of observable effects: the structured
log record (wrapper.py lines 198-201, emitted only when `log` is true) and
the `subprocess.Popen` call (line 203).  `login` stands for the value of
`_getlogin()` and `target` for `pwd.getpwuid(os.getuid())[0]`, both read from
the operating system; `env` is the base environment handed to
`get_environment`.  When `match_filter` raises, the exception propagates and
no effect is produced.  A failure of the spawn itself would interrupt the
program after every earlier event of the list, so the audit record survives
it. -/
def start_subprocess (filter_list : List Filter)
    (userargs exec_dirs : List String) (log : Bool) (login target : String)
    (env : List (String × String)) : MatchResult × List Event :=
  match match_filter filter_list userargs exec_dirs with
  | MatchResult.matched filtermatch =>
    (MatchResult.matched filtermatch,
      (if log then
        [Event.audit login target (filtermatch.get_command userargs exec_dirs)
          filtermatch.name]
      else []) ++
      [Event.spawn (filtermatch.get_command userargs exec_dirs)
        (filtermatch.get_environment userargs env)])
  | r => (r, [])

/-- Embeds `build_filter(class_name, *args)` (wrapper.py lines 101-108).  The
`filters` module is abstracted as `registry`, giving the constructor of a
class name when `hasattr(filters, class_name)` holds and `none` otherwise.
The result pairs the returned value (`None` embedded as `none`) with the
warnings logged. -/
def build_filter (registry : String → Option (List String → Filter))
    (class_name : String) (args : List String) : Option Filter × List String :=
  match registry class_name with
  | none =>
    (none, ["Skipping unknown filter class (" ++ class_name ++
      ") specified in filter definitions"])
  | some filterclass => (some (filterclass args), [])

/-- Embeds the per-entry loop of `load_filters` (wrapper.py lines 121-127).
Directory traversal and config-file parsing (lines 114-120) are the external
I/O collaborators named out of scope by the specification, so the
already-parsed `[Filters]` entries are the input: each carries the rule name
and the comma-split definition, i.e. the filter class name followed by the
constructor arguments (a Python `str.split` result is never empty, hence the
split into head and tail).  An entry on which `build_filter` returns `None`
is skipped; otherwise the built filter, with its `name` attribute set, is
appended.  The warnings of every entry are collected alongside. -/
def load_filters (registry : String → Option (List String → Filter))
    (entries : List (String × String × List String)) :
    List Filter × List String :=
  match entries with
  | [] => ([], [])
  | (nm, class_name, args) :: rest =>
    match build_filter registry class_name args with
    | (none, w) =>
      ((load_filters registry rest).1, w ++ (load_filters registry rest).2)
    | (some newfilter, w) =>
      ({ newfilter with name := nm } :: (load_filters registry rest).1,
        w ++ (load_filters registry rest).2)

theorem leafFilters_not_chaining {l : List Filter} {f g : Filter}
    (h : g ∈ leafFilters l f) : g.isChaining = false := by
  rw [leafFilters, List.mem_filter] at h
  have := h.2
  simp only [Bool.and_eq_true, Bool.not_eq_true'] at this
  exact this.2

theorem chainOk_of_chaining {full : List Filter} {f : Filter}
    {a d : List String} (hic : f.isChaining = true)
    (h : chainOk full f a d = true) :
    (f.exec_args a).isEmpty = false ∧
      ∃ g, matchFilterAux (leafFilters full f) (leafFilters full f)
        (f.exec_args a) d none = MatchResult.matched g := by
  rw [chainOk] at h
  simp only [hic, if_true] at h
  cases he : (f.exec_args a).isEmpty with
  | true => simp [he] at h
  | false =>
    simp only [he, Bool.false_eq_true, if_false] at h
    refine ⟨rfl, ?_⟩
    cases hr : matchFilterAux (leafFilters full f) (leafFilters full f)
        (f.exec_args a) d none with
    | matched g => exact ⟨g, rfl⟩
    | noFilterMatched => rw [hr] at h; cases h
    | filterMatchNotExecutable m => rw [hr] at h; cases h

theorem find?_append_eq_right {α : Type} {p : α → Bool} {P : List α}
    (h : ∀ g ∈ P, p g = false) (L : List α) :
    (P ++ L).find? p = L.find? p := by
  rw [List.find?_append]
  rw [List.find?_eq_none.mpr (fun x hx => by simp [h x hx])]
  rfl

/-- Concrete plain (non-chaining) filter used in the example scenarios: it
matches when the first argument equals `cmd`, and resolves to an executable
exactly when `installed` is true. -/
def plainFilter (nm cmd : String) (installed : Bool) : Filter :=
  { name := nm
    run_as := "root"
    isChaining := false
    fmatch := fun a => a.head? == some cmd
    exec_args := fun _ => []
    get_exec := fun _ => if installed then some ("/bin/" ++ cmd) else none
    get_command := fun a _ => ("/bin/" ++ cmd) :: a.tail
    get_environment := fun _ e => e }

/-- Concrete chaining filter used in the example scenarios: it matches a
command line starting with `sudo` and exposes the remaining arguments as the
embedded sub-invocation. -/
def sudoChain : Filter :=
  { name := "sudo"
    run_as := "root"
    isChaining := true
    fmatch := fun a => a.head? == some "sudo"
    exec_args := fun a => a.tail
    get_exec := fun _ => some "/usr/bin/sudo"
    get_command := fun a _ => "/usr/bin/sudo" :: a.tail
    get_environment := fun _ e => e }

/-- Variant of `sudoChain` whose `run_as` tag matches no leaf filter of the
example scenarios. -/
def sudoChainNoLeaf : Filter :=
  { sudoChain with run_as := "other" }

/-- Concrete leaf filter for the chaining scenarios: matches `cat` command
lines and is executable. -/
def catLeaf : Filter := plainFilter "cat" "cat" true

/-- Claim C1, counterexample.  In the list `[p0, p1, p2]` where all three
filters match `["ls"]`, are non-chaining and resolve to an executable, the
pair `(f1, f2) := (p1, p2)` satisfies every hypothesis of the claim — `p1`
occurs before `p2`, both match, neither is disqualified by a chaining check,
both resolve to an executable — yet `match_filter` does not return `p1`: it
returns the even earlier `p0`.  The claim as stated (for every such pair the
call returns `f1`) is therefore false. -/
theorem first_match_wins_counterexample :
    (plainFilter "p1" "ls" true).fmatch ["ls"] = true ∧
    (plainFilter "p2" "ls" true).fmatch ["ls"] = true ∧
    (plainFilter "p1" "ls" true).isChaining = false ∧
    (plainFilter "p2" "ls" true).isChaining = false ∧
    ((plainFilter "p1" "ls" true).get_exec ["/bin"]).isSome = true ∧
    ((plainFilter "p2" "ls" true).get_exec ["/bin"]).isSome = true ∧
    match_filter [plainFilter "p0" "ls" true, plainFilter "p1" "ls" true,
        plainFilter "p2" "ls" true] ["ls"] ["/bin"] ≠
      MatchResult.matched (plainFilter "p1" "ls" true) := by
  refine ⟨by simp [plainFilter], by simp [plainFilter], rfl, rfl,
    by simp [plainFilter], by simp [plainFilter], ?_⟩
  have heval : match_filter [plainFilter "p0" "ls" true,
      plainFilter "p1" "ls" true, plainFilter "p2" "ls" true] ["ls"] ["/bin"] =
      MatchResult.matched (plainFilter "p0" "ls" true) := by
    apply match_filter_first_accepting
    simp [List.find?, accepts, chainOk, plainFilter]
  rw [heval]
  intro h
  injection h with h'
  have := congrArg Filter.name h'
  simp [plainFilter] at this

/-- Claim C1 (amended): `match_filter` returns the first filter in list order
that matches, passes the chaining check and resolves to an executable.
Hence, when every filter before `f1` fails one of these conditions and `f1`
satisfies all of them, the call returns `f1` — in particular it never
returns a filter, such as `f2`, occurring only later in the list. -/
theorem first_match_wins (P S : List Filter) (f1 : Filter) (a d : List String)
    (hP : ∀ g ∈ P, accepts (P ++ f1 :: S) a d g = false)
    (h1 : accepts (P ++ f1 :: S) a d f1 = true) :
    match_filter (P ++ f1 :: S) a d = MatchResult.matched f1 := by
  apply match_filter_first_accepting
  rw [find?_append_eq_right hP]
  exact List.find?_cons_of_pos _ h1

/-- Witness for `first_match_wins`: with `p0` matching but not executable,
`p1` matching and executable, the first qualifying filter `p1` is returned. -/
theorem first_match_wins_witness :
    match_filter [plainFilter "p0" "ls" false, plainFilter "p1" "ls" true,
        plainFilter "p2" "ls" true] ["ls"] ["/bin"] =
      MatchResult.matched (plainFilter "p1" "ls" true) :=
  first_match_wins [plainFilter "p0" "ls" false] [plainFilter "p2" "ls" true]
    (plainFilter "p1" "ls" true) ["ls"] ["/bin"]
    (by
      intro g hg
      simp only [List.mem_singleton] at hg
      subst hg
      simp [accepts, plainFilter])
    (by simp [accepts, chainOk, plainFilter])

/-- Claim C2, counterexample.  In the list `[q1, q3, q2]` with `q1` matching
`["ls"]` but not executable and `q2` a later filter matching and executable,
the claim predicts that `match_filter` returns `q2`; it actually returns
`q3`, the first matching executable filter between them.  The claim as
stated is therefore false. -/
theorem executable_skip_counterexample :
    (plainFilter "q1" "ls" false).fmatch ["ls"] = true ∧
    ((plainFilter "q1" "ls" false).get_exec ["/bin"]).isSome = false ∧
    (plainFilter "q2" "ls" true).fmatch ["ls"] = true ∧
    ((plainFilter "q2" "ls" true).get_exec ["/bin"]).isSome = true ∧
    match_filter [plainFilter "q1" "ls" false, plainFilter "q3" "ls" true,
        plainFilter "q2" "ls" true] ["ls"] ["/bin"] ≠
      MatchResult.matched (plainFilter "q2" "ls" true) := by
  refine ⟨by simp [plainFilter], by simp [plainFilter], by simp [plainFilter],
    by simp [plainFilter], ?_⟩
  have heval : match_filter [plainFilter "q1" "ls" false,
      plainFilter "q3" "ls" true, plainFilter "q2" "ls" true] ["ls"] ["/bin"] =
      MatchResult.matched (plainFilter "q3" "ls" true) := by
    apply match_filter_first_accepting
    simp [List.find?, accepts, chainOk, plainFilter]
  rw [heval]
  intro h
  injection h with h'
  have := congrArg Filter.name h'
  simp [plainFilter] at this

/-- Claim C2 (amended).  First part: when `f1` matches, passes the chaining
check but is not executable, and `f2` is the first later filter that matches,
passes the chaining check and is executable (no filter up to and including
`f1`, nor between them, qualifies), `match_filter` skips `f1` and returns
`f2`.  Second part: when no filter qualifies, the failure is
`FilterMatchNotExecutable` carrying the first filter in list order that
matched (passing the chaining check) but was not executable. -/
theorem executable_skip :
    (∀ (P M S : List Filter) (f1 f2 : Filter) (a d : List String),
      recordable (P ++ f1 :: M ++ f2 :: S) a d f1 = true →
      (∀ g ∈ P ++ f1 :: M, accepts (P ++ f1 :: M ++ f2 :: S) a d g = false) →
      accepts (P ++ f1 :: M ++ f2 :: S) a d f2 = true →
      match_filter (P ++ f1 :: M ++ f2 :: S) a d = MatchResult.matched f2) ∧
    (∀ (F : List Filter) (f1 : Filter) (a d : List String),
      (∀ g ∈ F, accepts F a d g = false) →
      F.find? (recordable F a d) = some f1 →
      match_filter F a d = MatchResult.filterMatchNotExecutable f1) := by
  constructor
  · intro P M S f1 f2 a d _ hP h2
    apply match_filter_first_accepting
    have : P ++ f1 :: M ++ f2 :: S = (P ++ f1 :: M) ++ f2 :: S := by
      simp
    rw [this] at hP h2 ⊢
    rw [find?_append_eq_right hP]
    exact List.find?_cons_of_pos _ h2
  · intro F f1 a d hall hfind
    rw [match_filter_no_accepting (List.find?_eq_none.mpr
      (fun x hx => by simp [hall x hx])), hfind]

/-- Witness for `executable_skip`: with `q1` matching but not executable and
`q2` matching and executable, `q2` is returned; with `q1` alone, the failure
carries `q1`. -/
theorem executable_skip_witness :
    match_filter [plainFilter "q1" "ls" false, plainFilter "q2" "ls" true]
        ["ls"] ["/bin"] = MatchResult.matched (plainFilter "q2" "ls" true) ∧
    match_filter [plainFilter "q1" "ls" false] ["ls"] ["/bin"] =
      MatchResult.filterMatchNotExecutable (plainFilter "q1" "ls" false) := by
  constructor
  · exact executable_skip.1 [] [] [] (plainFilter "q1" "ls" false)
      (plainFilter "q2" "ls" true) ["ls"] ["/bin"]
      (by simp [recordable, chainOk, plainFilter])
      (by
        intro g hg
        simp only [List.nil_append, List.mem_singleton] at hg
        subst hg
        simp [accepts, plainFilter])
      (by simp [accepts, chainOk, plainFilter])
  · exact executable_skip.2 [plainFilter "q1" "ls" false]
      (plainFilter "q1" "ls" false) ["ls"] ["/bin"]
      (by
        intro g hg
        simp only [List.mem_singleton] at hg
        subst hg
        simp [accepts, plainFilter])
      (by simp [List.find?, recordable, chainOk, plainFilter])

/-- Claim C3: chaining correctness.  First part: whenever `match_filter`
returns a chaining filter `c`, the embedded argument vector `c.exec_args a`
is non-empty and the recursive `match_filter` over the leaf filter set (the
filters of the original list with the same `run_as` as `c` that are not
chaining filters) returns some leaf filter, which matches the embedded
arguments and is executable.  Second part: a matching chaining filter that
fails the chaining check (empty `exec_args` or failed recursive match) is
skipped, and scanning continues with the next filter.  Third part: a
matching filter that passes the chaining check and is executable is returned
itself — the result of the recursive call is discarded. -/
theorem chaining_correctness :
    (∀ (F : List Filter) (a d : List String) (c : Filter),
      match_filter F a d = MatchResult.matched c → c.isChaining = true →
      c.exec_args a ≠ [] ∧
      ∃ g ∈ leafFilters F c,
        match_filter (leafFilters F c) (c.exec_args a) d =
          MatchResult.matched g ∧
        g.fmatch (c.exec_args a) = true ∧ (g.get_exec d).isSome = true) ∧
    (∀ (full rest : List Filter) (c : Filter) (a d : List String)
        (ne : Option Filter),
      c.fmatch a = true → c.isChaining = true → chainOk full c a d = false →
      matchFilterAux full (c :: rest) a d ne =
        matchFilterAux full rest a d ne) ∧
    (∀ (full rest : List Filter) (c : Filter) (a d : List String)
        (ne : Option Filter),
      c.fmatch a = true → chainOk full c a d = true →
      (c.get_exec d).isSome = true →
      matchFilterAux full (c :: rest) a d ne = MatchResult.matched c) := by
  refine ⟨?_, ?_, ?_⟩
  · intro F a d c hres hic
    have hacc := (match_filter_matched_sound hres).2
    rw [accepts] at hacc
    simp only [Bool.and_eq_true] at hacc
    obtain ⟨he, ⟨g, hg⟩⟩ := chainOk_of_chaining hic hacc.1.2
    have hginner : match_filter (leafFilters F c) (c.exec_args a) d =
        MatchResult.matched g := by
      rw [match_filter]
      exact hg
    have hsound := match_filter_matched_sound hginner
    have hgacc := hsound.2
    rw [accepts] at hgacc
    simp only [Bool.and_eq_true] at hgacc
    refine ⟨by simpa [List.isEmpty_iff] using he,
      g, hsound.1, hginner, hgacc.1.1, hgacc.2⟩
  · intro full rest c a d ne hm _ hc
    exact matchFilterAux_chain_fail full c rest a d ne hm hc
  · intro full rest c a d ne hm hc hx
    exact matchFilterAux_accept full c rest a d ne hm hc hx

/-- Witness for `chaining_correctness`, on the scenario of the specification:
`sudoChain` matching `["sudo", "cat", "/etc/shadow"]` delegates to the leaf
filter `catLeaf` matching `["cat", "/etc/shadow"]`; the variant
`sudoChainNoLeaf`, whose `run_as` has no leaf filters, is skipped. -/
theorem chaining_correctness_witness :
    (sudoChain.exec_args ["sudo", "cat", "/etc/shadow"] ≠ [] ∧
      ∃ g ∈ leafFilters [sudoChain, catLeaf] sudoChain,
        match_filter (leafFilters [sudoChain, catLeaf] sudoChain)
            (sudoChain.exec_args ["sudo", "cat", "/etc/shadow"]) ["/bin"] =
          MatchResult.matched g ∧
        g.fmatch (sudoChain.exec_args ["sudo", "cat", "/etc/shadow"]) = true ∧
        (g.get_exec ["/bin"]).isSome = true) ∧
    matchFilterAux [sudoChainNoLeaf, catLeaf] [sudoChainNoLeaf, catLeaf]
        ["sudo", "cat", "/etc/shadow"] ["/bin"] none =
      matchFilterAux [sudoChainNoLeaf, catLeaf] [catLeaf]
        ["sudo", "cat", "/etc/shadow"] ["/bin"] none ∧
    matchFilterAux [sudoChain, catLeaf] [sudoChain, catLeaf]
        ["sudo", "cat", "/etc/shadow"] ["/bin"] none =
      MatchResult.matched sudoChain := by
  refine ⟨?_, ?_, ?_⟩
  · apply chaining_correctness.1 [sudoChain, catLeaf] ["sudo", "cat", "/etc/shadow"]
      ["/bin"] sudoChain ?_ rfl
    apply match_filter_first_accepting
    simp [List.find?, accepts, chainOk, leafFilters, List.filter,
      matchFilterAux_characterization, recordable, sudoChain, catLeaf, plainFilter]
  · apply chaining_correctness.2.1 [sudoChainNoLeaf, catLeaf] [catLeaf]
      sudoChainNoLeaf ["sudo", "cat", "/etc/shadow"] ["/bin"] none
      (by simp [sudoChainNoLeaf, sudoChain]) rfl
    simp [chainOk, leafFilters, List.filter, matchFilterAux_characterization,
      List.find?, accepts, recordable, sudoChainNoLeaf, sudoChain, catLeaf,
      plainFilter]
  · apply chaining_correctness.2.2 [sudoChain, catLeaf] [catLeaf] sudoChain
      ["sudo", "cat", "/etc/shadow"] ["/bin"] none
      (by simp [sudoChain]) ?_ (by simp [sudoChain])
    simp [chainOk, leafFilters, List.filter, matchFilterAux_characterization,
      List.find?, accepts, recordable, sudoChain, catLeaf, plainFilter]

/-- Claim C4: for every filter list, argument vector and exec_dirs, the
outcome of `match_filter` is one of exactly three: a returned filter, or one
of the two failures `NoFilterMatched` / `FilterMatchNotExecutable`; and a
`FilterMatchNotExecutable` outcome always carries, in its `match` attribute,
an offending filter of the list that matched (and passed the chaining check)
but resolved to no executable. -/
theorem match_filter_outcomes (F : List Filter) (a d : List String) :
    ((∃ f, match_filter F a d = MatchResult.matched f) ∨
      match_filter F a d = MatchResult.noFilterMatched ∨
      (∃ m, match_filter F a d = MatchResult.filterMatchNotExecutable m)) ∧
    (∀ m, match_filter F a d = MatchResult.filterMatchNotExecutable m →
      m ∈ F ∧ m.fmatch a = true ∧ chainOk F m a d = true ∧
        (m.get_exec d).isSome = false) := by
  constructor
  · cases h : match_filter F a d with
    | matched f => exact Or.inl ⟨f, rfl⟩
    | noFilterMatched => exact Or.inr (Or.inl rfl)
    | filterMatchNotExecutable m => exact Or.inr (Or.inr ⟨m, rfl⟩)
  · intro m h
    exact match_filter_notExecutable_sound h

/-- Witness for `match_filter_outcomes`: the failure on the scenario of a
matching but uninstalled `ls` rule carries that very filter, which matched
and was not executable. -/
theorem match_filter_outcomes_witness :
    plainFilter "ls" "ls" false ∈ [plainFilter "ls" "ls" false] ∧
    (plainFilter "ls" "ls" false).fmatch ["ls"] = true ∧
    chainOk [plainFilter "ls" "ls" false] (plainFilter "ls" "ls" false)
      ["ls"] ["/nonexistent"] = true ∧
    ((plainFilter "ls" "ls" false).get_exec ["/nonexistent"]).isSome = false := by
  apply (match_filter_outcomes [plainFilter "ls" "ls" false] ["ls"]
    ["/nonexistent"]).2 (plainFilter "ls" "ls" false)
  rw [match_filter_no_accepting
    (by simp [List.find?, accepts, chainOk, plainFilter])]
  simp [List.find?, recordable, chainOk, plainFilter]

/-- Claim C5: with an empty filter list, `match_filter` raises
`NoFilterMatched` for every non-empty argument vector. -/
theorem empty_filter_list_no_match (a d : List String) (_ : a ≠ []) :
    match_filter [] a d = MatchResult.noFilterMatched := by
  rw [match_filter, matchFilterAux_nil]

/-- Witness for `empty_filter_list_no_match` at the argument vector
`["ls"]`. -/
theorem empty_filter_list_no_match_witness :
    (["ls"] : List String) ≠ [] ∧
    match_filter [] ["ls"] [] = MatchResult.noFilterMatched :=
  ⟨by simp, empty_filter_list_no_match ["ls"] [] (by simp)⟩

/-- Claim C6: determinism.  Two calls of `match_filter` on identical
`(F, a, exec_dirs)` are embedded as calls on two filter lists whose filters
are pairwise extensionally equal — each `match`, `exec_args`, `get_exec`,
`get_command` and `get_environment` behaves as the same pure function of its
arguments, i.e. the filesystem state consulted by `get_exec` is fixed.
Under this precondition both calls produce the same returned filter or the
same failure kind carrying the same filter. -/
theorem match_filter_deterministic (F G : List Filter) (a d : List String)
    (h : List.Forall₂ Filter.EquivExt F G) :
    match_filter F a d = match_filter G a d := by
  have hFG : F = G := by
    induction h with
    | nil => rfl
    | cons hfg _ ih => rw [Filter.eq_of_equivExt hfg, ih]
  rw [hFG]

/-- Witness for `match_filter_deterministic` on two extensionally equal
copies of the `ls` rule. -/
theorem match_filter_deterministic_witness :
    match_filter [plainFilter "ls" "ls" true] ["ls"] ["/bin"] =
      match_filter [{ plainFilter "ls" "ls" true with
        fmatch := fun a => a.head? == some "ls" }] ["ls"] ["/bin"] :=
  match_filter_deterministic _ _ ["ls"] ["/bin"]
    (List.forall₂_cons.mpr
      ⟨⟨rfl, rfl, rfl, fun _ => rfl, fun _ => rfl, fun _ => rfl,
        fun _ _ => rfl, fun _ _ => rfl⟩, List.Forall₂.nil⟩)

/-- Claim C7: termination and depth bound.  The fuel-instrumented copy of the
loop computes the exact `match_filter` result with a single unit of nesting
fuel: the recursion made for a chaining filter receives only the leaf filter
set, which contains no chaining filter (second conjunct), so the recursion is
at most one nested level deep and cannot be unbounded for any configuration.
(Termination on every finite list is additionally built into the embedding:
`matchFilterAux` is accepted by well-founded recursion on the measure
`(chainCount rest, rest.length)`.) -/
theorem match_filter_depth_bound (F : List Filter) (a d : List String) :
    matchFilterAuxFuel 1 F F a d none = some (match_filter F a d) ∧
    ∀ f : Filter, chainCount (leafFilters F f) = 0 :=
  ⟨matchFilterAuxFuel_one a d F F none, fun f => chainCount_leafFilters F f⟩

/-- Claim C8: a matching chaining filter that fails the chaining check is
never recorded as the first not-executable match; hence when some filter
matches but every matching filter is such a disqualified chaining filter,
`match_filter` raises `NoFilterMatched`, not `FilterMatchNotExecutable`. -/
theorem disqualified_chaining_not_recorded (F : List Filter)
    (a d : List String) (_ : ∃ g ∈ F, g.fmatch a = true)
    (hall : ∀ g ∈ F, g.fmatch a = true →
      g.isChaining = true ∧ chainOk F g a d = false) :
    match_filter F a d = MatchResult.noFilterMatched := by
  have hacc : F.find? (accepts F a d) = none := by
    rw [List.find?_eq_none]
    intro g hg
    simp only [accepts, Bool.and_eq_true, not_and]
    intro hga
    rw [(hall g hg hga.1).2] at hga
    cases hga.2
  have hrec : F.find? (recordable F a d) = none := by
    rw [List.find?_eq_none]
    intro g hg
    simp only [recordable, Bool.and_eq_true, not_and]
    intro hga
    rw [(hall g hg hga.1).2] at hga
    cases hga.2
  rw [match_filter_no_accepting hacc, hrec]

/-- Witness for `disqualified_chaining_not_recorded`: `sudoChainNoLeaf`
matches `["sudo", "cat", "/etc/shadow"]` but its leaf filter set is empty, so
the overall result is `NoFilterMatched` even though a match predicate
accepted the argument vector. -/
theorem disqualified_chaining_not_recorded_witness :
    match_filter [sudoChainNoLeaf] ["sudo", "cat", "/etc/shadow"] ["/bin"] =
      MatchResult.noFilterMatched := by
  apply disqualified_chaining_not_recorded
  · exact ⟨sudoChainNoLeaf, by simp, by simp [sudoChainNoLeaf, sudoChain]⟩
  · intro g hg _
    simp only [List.mem_singleton] at hg
    subst hg
    refine ⟨rfl, ?_⟩
    simp [chainOk, leafFilters, List.filter, matchFilterAux_characterization,
      List.find?, sudoChainNoLeaf, sudoChain]

/-- Claim C9: audit order.  With logging enabled, whenever matching succeeds
`start_subprocess` produces the structured log record — real invoking login
identity, effective target identity, resolved command, matched filter name —
as the first observable effect and the process spawn as the second: the
record is emitted after matching and command resolution (it contains the
resolved command and the matched filter's name) and strictly before the
child process is spawned, so a spawn failure, interrupting the program after
the events preceding the spawn, still leaves the audit record. -/
theorem audit_before_spawn (F : List Filter) (a d : List String)
    (login target : String) (env : List (String × String)) (f : Filter)
    (h : match_filter F a d = MatchResult.matched f) :
    (start_subprocess F a d true login target env).2 =
      [Event.audit login target (f.get_command a d) f.name,
       Event.spawn (f.get_command a d) (f.get_environment a env)] := by
  rw [start_subprocess, h]
  rfl

/-- Witness for `audit_before_spawn` on the `cat` scenario: the audit event
precedes the spawn event. -/
theorem audit_before_spawn_witness :
    (start_subprocess [catLeaf] ["cat", "/etc/motd"] ["/bin"] true
        "alice" "root" []).2 =
      [Event.audit "alice" "root"
        (catLeaf.get_command ["cat", "/etc/motd"] ["/bin"]) catLeaf.name,
       Event.spawn (catLeaf.get_command ["cat", "/etc/motd"] ["/bin"])
        (catLeaf.get_environment ["cat", "/etc/motd"] [])] := by
  apply audit_before_spawn
  apply match_filter_first_accepting
  simp [List.find?, accepts, chainOk, catLeaf, plainFilter]

/-- Claim C10: loader tolerance.  For an entry naming a filter class absent
from the filters module (`registry class_name = none`), `build_filter` logs
the warning and returns `None`, and `load_filters` omits the entry from the
returned filter list while loading all remaining entries unchanged — the
load never fails because of an unknown filter class. -/
theorem loader_tolerance (registry : String → Option (List String → Filter))
    (class_name : String) (args : List String)
    (h : registry class_name = none) :
    build_filter registry class_name args =
      (none, ["Skipping unknown filter class (" ++ class_name ++
        ") specified in filter definitions"]) ∧
    (∀ (nm : String) (rest : List (String × String × List String)),
      load_filters registry ((nm, class_name, args) :: rest) =
        ((load_filters registry rest).1,
          ("Skipping unknown filter class (" ++ class_name ++
            ") specified in filter definitions") ::
            (load_filters registry rest).2)) := by
  constructor
  · rw [build_filter, h]
  · intro nm rest
    rw [load_filters, build_filter, h]
    rfl

/-- Witness for `loader_tolerance` on a registry knowing only
`CommandFilter`: the unknown entry is skipped with a warning and the
remaining entry is still loaded. -/
theorem loader_tolerance_witness :
    build_filter
        (fun c => if c = "CommandFilter" then
          some (fun _ => plainFilter "" "ls" true) else none)
        "BogusFilter" ["/bin/ls"] =
      (none, ["Skipping unknown filter class (" ++ "BogusFilter" ++
        ") specified in filter definitions"]) ∧
    load_filters
        (fun c => if c = "CommandFilter" then
          some (fun _ => plainFilter "" "ls" true) else none)
        [("bad", "BogusFilter", ["/bin/ls"]),
         ("ls", "CommandFilter", ["/bin/ls"])] =
      ([{ plainFilter "" "ls" true with name := "ls" }],
        ["Skipping unknown filter class (" ++ "BogusFilter" ++
          ") specified in filter definitions"]) := by
  have h := loader_tolerance
    (fun c => if c = "CommandFilter" then
      some (fun _ => plainFilter "" "ls" true) else none)
    "BogusFilter" ["/bin/ls"] (by simp)
  refine ⟨by rw [h.1], ?_⟩
  rw [h.2 "bad" [("ls", "CommandFilter", ["/bin/ls"])]]
  rw [load_filters, build_filter]
  simp [load_filters]

end Rootwrap
